import Mathlib

/-! # md-study: flashcard store and review scheduler

A shallow embedding of the Go packages `storage`, `scheduler`, `processor`
and `studyengine` of md-study, followed by theorems about them.

Modelling conventions.

* The flashcard file `flashcards.json` is the list of records it holds, in
  file order.  Every operation reads the whole list and, when it writes,
  writes the whole list; file-system and JSON failures are outside the model.
* An operation that returns a Go `error` yields an `Outcome`: the error (if any)
  and the list the file holds afterwards.
* Go `int` is `Int`; `time.Time` is the number of nanoseconds since the zero
  `time.Time`, so `time.Time{}` is `0` and `Before`/`After` are `<`/`>`.
* Each reading of `time.Now()` and each value of `uuid.New().String()` is a
  parameter of the operation that asks for it.
* `float64` arithmetic in the statistics is carried out in exact rationals.
-/

namespace MdStudy

/-- Go `time.Time`, in nanoseconds since the zero time. -/
abbrev Time := Int

/-- Go `time.Hour`, a `time.Duration` in nanoseconds. -/
def Hour : Int := 3600000000000

/-- Go `time.Second`, a `time.Duration` in nanoseconds. -/
def Second : Int := 1000000000

/-- Errors an operation can end with: the `flashcard not found: <id>` error value,
and the run-time panic of an out-of-range slice index. -/
inductive Error where
  | notFound (id : String)
  | indexOutOfRange
deriving DecidableEq, Repr

namespace storage

/-- The record `storage.Note`. -/
structure Note where
  ID : String
  FilePath : String
  Filename : String
  RawContent : String
  LastImport : Time
  Flashcards : List String
deriving DecidableEq, Repr

/-- The record `storage.Flashcard`. -/
structure Flashcard where
  ID : String
  NoteID : String
  Question : String
  Answer : String
  Difficulty : Int
  RepCount : Int
  LastReview : Time
  NextReview : Time
deriving DecidableEq, Repr

/-- The record `storage.StudyStats`. -/
structure StudyStats where
  TotalNotes : Int
  TotalFlashcards : Int
  CardsDueToday : Int
  CardsLearned : Int
  ReviewAccuracy : ℚ
deriving DecidableEq

/-- What a writing operation leaves behind: its `error` result and the
flashcard list on disk after it. -/
structure Outcome where
  err : Option Error
  cards : List Flashcard
deriving DecidableEq, Repr

/-- The update-or-add loop of `SaveFlashcard`: overwrite the first record whose
`ID` equals `card.ID` and stop; the flag tells whether one was found. -/
def saveLoop (card : Flashcard) : List Flashcard → List Flashcard × Bool
  | [] => ([], false)
  | c :: cs =>
    if c.ID = card.ID then (card :: cs, true)
    else ((saveLoop card cs).1.cons c, (saveLoop card cs).2)

/-- The first step of `SaveFlashcard`: a card whose `ID` is empty gets the
generated identifier `fresh`. -/
def assignID (fresh : String) (card : Flashcard) : Flashcard :=
  if card.ID = "" then { card with ID := fresh } else card

/-- The stores the program produces: every record carries an assigned (non-empty)
`ID`. The file starts as `[]`, `SaveFlashcard` is the only operation that adds or
overwrites a record and it runs `assignID` first, and the deletions only remove. -/
@[reducible] def IDsAssigned (cards : List Flashcard) : Prop :=
  ∀ c ∈ cards, c.ID ≠ ""

/-- `storage.SaveFlashcard`: the card, after `assignID`, replaces the first stored
record of the same `ID` or is appended. -/
def SaveFlashcard (cards : List Flashcard) (fresh : String) (card : Flashcard) : Outcome :=
  let card := assignID fresh card
  let r := saveLoop card cards
  let cards := if r.2 then r.1 else r.1 ++ [card]
  { err := none, cards := cards }

/-- `storage.GetFlashcard`: the first stored record with the given `ID`. -/
def GetFlashcard : List Flashcard → String → Except Error Flashcard
  | [], id => .error (.notFound id)
  | card :: rest, id => if card.ID = id then .ok card else GetFlashcard rest id

/-- `storage.UpdateFlashcard`. -/
def UpdateFlashcard (cards : List Flashcard) (fresh : String) (card : Flashcard) : Outcome :=
  SaveFlashcard cards fresh card

/-- `storage.GetFlashcardsDueBefore`: scan the records in order and append each
one whose `NextReview` is before `time`. -/
def GetFlashcardsDueBefore (cards : List Flashcard) (time : Time) :
    Except Error (List Flashcard) :=
  .ok (cards.foldl
    (fun dueCards card => if card.NextReview < time then dueCards ++ [card] else dueCards) [])

/-- The counters of the loop in `GetStudyStats`. -/
structure Counters where
  dueToday : Int
  learned : Int
  totalDifficulty : Int
  totalReps : Int
deriving DecidableEq, Repr

/-- One iteration of the loop in `GetStudyStats`. -/
def statsStep (today tomorrow : Time) (k : Counters) (card : Flashcard) : Counters :=
  let k := if card.NextReview > today ∧ card.NextReview < tomorrow
    then { k with dueToday := k.dueToday + 1 } else k
  if card.RepCount > 0 then
    { k with learned := k.learned + 1,
             totalDifficulty := k.totalDifficulty + card.Difficulty,
             totalReps := k.totalReps + 1 }
  else k

/-- `storage.GetStudyStats`, `now` being the reading of `time.Now()`. -/
def GetStudyStats (notes : List Note) (cards : List Flashcard) (now : Time) :
    Except Error StudyStats :=
  let today := now
  let tomorrow := today + 24 * Hour
  let k := cards.foldl (statsStep today tomorrow) ⟨0, 0, 0, 0⟩
  let accuracy : ℚ :=
    if k.totalReps > 0 then
      let avgDifficulty : ℚ := (k.totalDifficulty : ℚ) / (k.totalReps : ℚ)
      100 * (1 - avgDifficulty / 3)
    else 0
  .ok { TotalNotes := notes.length, TotalFlashcards := cards.length,
        CardsDueToday := k.dueToday, CardsLearned := k.learned,
        ReviewAccuracy := accuracy }

/-- `storage.GetAllFlashcards`. -/
def GetAllFlashcards (cards : List Flashcard) : Except Error (List Flashcard) :=
  .ok cards

/-- The filter loop of `DeleteFlashcard`: the kept records and the `found` flag. -/
def deleteLoop (id : String) : List Flashcard → List Flashcard × Bool → List Flashcard × Bool
  | [], acc => acc
  | card :: rest, (newCards, found) =>
    if card.ID ≠ id then deleteLoop id rest (newCards ++ [card], found)
    else deleteLoop id rest (newCards, true)

/-- `storage.DeleteFlashcard`. -/
def DeleteFlashcard (cards : List Flashcard) (id : String) : Outcome :=
  let r := deleteLoop id cards ([], false)
  if !r.2 then { err := some (.notFound id), cards := cards }
  else { err := none, cards := r.1 }

/-- `storage.DeleteAllFlashcards`: the file is overwritten with `[]`. -/
def DeleteAllFlashcards (_cards : List Flashcard) : Outcome :=
  { err := none, cards := [] }

end storage

namespace scheduler

open storage

/-- The table `intervals` (hours), one row per difficulty. -/
def intervals : List (List Int) :=
  [ [0, 24, 144, 432],
    [0, 8, 48, 172],
    [0, 3, 24, 72],
    [0, 1, 3, 8] ]

/-- The helper `min` of package `scheduler`. -/
def min (a b : Int) : Int :=
  if a < b then a else b

/-- Go slice indexing `xs[i]` with an `int` index: out of range panics. -/
def index {α : Type} (xs : List α) (i : Int) : Except Error α :=
  if i < 0 then .error .indexOutOfRange
  else match xs[i.toNat]? with
    | some x => .ok x
    | none => .error .indexOutOfRange

/-- The expression
`intervals[difficulty][min(card.RepCount, len(intervals[difficulty])-1)]`. -/
def nextInterval (difficulty repCount : Int) : Except Error Int :=
  match index intervals difficulty with
  | .error e => .error e
  | .ok row => index row (min repCount ((row.length : Int) - 1))

/-- `scheduler.GetDueFlashcards`. -/
def GetDueFlashcards (cards : List Flashcard) (now : Time) : Except Error (List Flashcard) :=
  GetFlashcardsDueBefore cards now

/-- The three assignments of `scheduler.UpdateFlashcard` to the card it read. -/
def review (card : Flashcard) (now : Time) (hours difficulty : Int) : Flashcard :=
  let card := { card with NextReview := now + hours * Hour }
  let card := { card with RepCount := card.RepCount + 1 }
  { card with Difficulty := difficulty }

/-- `scheduler.UpdateFlashcard`, `now` being the reading of `time.Now()`. -/
def UpdateFlashcard (cards : List Flashcard) (now : Time) (fresh : String)
    (id : String) (difficulty : Int) : Outcome :=
  match GetFlashcard cards id with
  | .error e => { err := some e, cards := cards }
  | .ok card =>
    match nextInterval difficulty card.RepCount with
    | .error e => { err := some e, cards := cards }
    | .ok hours => storage.UpdateFlashcard cards fresh (review card now hours difficulty)

end scheduler

namespace strings

/-- Go `unicode.IsSpace`. -/
def isSpace (c : Char) : Bool :=
  let n := c.toNat
  if n ≤ 0xFF then
    n = 0x09 || n = 0x0A || n = 0x0B || n = 0x0C || n = 0x0D || n = 0x20 || n = 0x85 || n = 0xA0
  else
    n = 0x1680 || (0x2000 ≤ n && n ≤ 0x200A) || n = 0x2028 || n = 0x2029 || n = 0x202F
      || n = 0x205F || n = 0x3000

/-- Go `strings.TrimSpace`: drop leading and trailing white space. -/
def TrimSpace (s : String) : String :=
  String.mk ((s.data.dropWhile isSpace).reverse.dropWhile isSpace).reverse

/-- Go `strings.HasPrefix`. -/
def HasPrefix (s pre : String) : Bool :=
  pre.data.isPrefixOf s.data

/-- Go `strings.TrimPrefix`. -/
def TrimPrefix (s pre : String) : String :=
  if HasPrefix s pre then String.mk (s.data.drop pre.data.length) else s

/-- Splitting a character list at every occurrence of `sep`. -/
def splitChars (sep : Char) : List Char → List (List Char)
  | [] => [[]]
  | c :: cs =>
    if c = sep then [] :: splitChars sep cs
    else match splitChars sep cs with
      | [] => [[c]]
      | l :: ls => (c :: l) :: ls

/-- Go `strings.Split(s, sep)` for a one-character separator. -/
def Split (s : String) (sep : Char) : List String :=
  (splitChars sep s.data).map String.mk

end strings

namespace processor

open storage strings

/-- The variables of the loop in `parseFlashcardsFromResponse`. -/
structure ParseState where
  flashcards : List Flashcard
  currentQuestion : String
  currentAnswer : String
deriving DecidableEq, Repr

/-- The composite literal `storage.Flashcard{NoteID, Question, Answer,
Difficulty: 0, NextReview: time.Now()}`; the fields it leaves out are zero. -/
def newFlashcard (noteID question answer : String) (now : Time) : Flashcard :=
  { ID := "", NoteID := noteID, Question := question, Answer := answer,
    Difficulty := 0, RepCount := 0, LastReview := 0, NextReview := now }

/-- Append a flashcard built from the current question and answer and clear both.
The card appended when `k` cards exist reads the clock as `clock k`. -/
def emit (clock : Nat → Time) (noteID : String) (st : ParseState) : ParseState :=
  { flashcards := st.flashcards ++
      [newFlashcard noteID st.currentQuestion st.currentAnswer (clock st.flashcards.length)],
    currentQuestion := "", currentAnswer := "" }

/-- The loop of `parseFlashcardsFromResponse` over the remaining lines; the
head of the list is `lines[i]` and the rest starts at `lines[i+1]`. -/
def parseLoop (clock : Nat → Time) (noteID : String) : List String → ParseState → ParseState
  | [], st => st
  | raw :: rest, st =>
    let line := TrimSpace raw
    if HasPrefix line "Q:" then
      let st := if st.currentQuestion ≠ "" ∧ st.currentAnswer ≠ "" then emit clock noteID st else st
      parseLoop clock noteID rest { st with currentQuestion := TrimSpace (TrimPrefix line "Q:") }
    else if HasPrefix line "A:" then
      let st := { st with currentAnswer := TrimSpace (TrimPrefix line "A:") }
      let atEnd : Bool := match rest with
        | [] => true
        | next :: _ => HasPrefix (TrimSpace next) "Q:"
      if atEnd ∧ st.currentQuestion ≠ "" then parseLoop clock noteID rest (emit clock noteID st)
      else parseLoop clock noteID rest st
    else parseLoop clock noteID rest st

/-- `processor.parseFlashcardsFromResponse`; `clock k` is the reading of
`time.Now()` taken for the card with index `k` of the result. -/
def parseFlashcardsFromResponse (clock : Nat → Time) (response noteID : String) :
    Except Error (List Flashcard) :=
  let lines := Split response '\n'
  .ok (parseLoop clock noteID lines ⟨[], "", ""⟩).flashcards

/-- The loop invariant of the parser: the card at position `k` is the composite
literal of `newFlashcard` with the clock reading `clock k`. -/
def Generated (clock : Nat → Time) (noteID : String) (flashcards : List Flashcard) : Prop :=
  ∀ k c, flashcards[k]? = some c →
    c.ID = "" ∧ c.NoteID = noteID ∧ c.Difficulty = 0 ∧ c.RepCount = 0 ∧ c.LastReview = 0 ∧
      c.NextReview = clock k

/-- `processor.DeleteAllFlashcards`. -/
def DeleteAllFlashcards (cards : List Flashcard) : Outcome :=
  storage.DeleteAllFlashcards cards

end processor

namespace studyengine

open strings

/-- The rating read in `StartStudySession`: the input line is trimmed and
mapped by the `switch` to the variable `difficulty`. -/
def difficulty (input : String) : Int :=
  let input := TrimSpace input
  if input = "1" then 0
  else if input = "2" then 1
  else if input = "3" then 2
  else if input = "4" then 3
  else 2

end studyengine

namespace spec

open storage

/-- The spec's "learned" cards: those with `repetitionCount > 0`. -/
def learnedCards (cards : List Flashcard) : List Flashcard :=
  cards.filter (fun card => decide (card.RepCount > 0))

/-- The spec's `meanDifficultyOfLearnedCards`, as an exact rational. -/
def meanDifficultyOfLearnedCards (cards : List Flashcard) : ℚ :=
  ((((learnedCards cards).map (fun card => card.Difficulty)).sum : Int) : ℚ)
    / (((learnedCards cards).length : Int) : ℚ)

/-- The spec's flashcard invariant on the two counters: `repetitionCount >= 0` and
`difficulty` one of the four levels. -/
@[reducible] def Invariant (card : Flashcard) : Prop :=
  0 ≤ card.RepCount ∧
    (card.Difficulty = 0 ∨ card.Difficulty = 1 ∨ card.Difficulty = 2 ∨ card.Difficulty = 3)

end spec

namespace sample

open storage

/-- A stored card that was never reviewed. -/
def fresh : Flashcard :=
  { ID := "c-1", NoteID := "n-1", Question := "What is a slice?", Answer := "A view of an array",
    Difficulty := 0, RepCount := 0, LastReview := 0, NextReview := 7 }

/-- A stored card reviewed five times. -/
def seasoned : Flashcard :=
  { ID := "c-2", NoteID := "n-1", Question := "What is a map?", Answer := "A hash table",
    Difficulty := 3, RepCount := 5, LastReview := 0, NextReview := 5000 }

/-- A record whose `ID` is empty. -/
def unnamed : Flashcard :=
  { ID := "", NoteID := "n-2", Question := "What is a channel?", Answer := "A typed conduit",
    Difficulty := 0, RepCount := 0, LastReview := 0, NextReview := 7 }

/-- A generated identifier. -/
def uuid : String := "6ba7b810-9dad-41d1-80b4-00c04fd430c8"

end sample

/-! ## Lemmas about the store -/

namespace storage

theorem GetFlashcard_cons (c : Flashcard) (cs : List Flashcard) (id : String) :
    GetFlashcard (c :: cs) id = if c.ID = id then .ok c else GetFlashcard cs id := rfl

theorem GetFlashcard_ok_mem {cards : List Flashcard} {id : String} {card : Flashcard}
    (h : GetFlashcard cards id = .ok card) : card ∈ cards ∧ card.ID = id := by
  induction cards with
  | nil => simp [GetFlashcard] at h
  | cons c cs ih =>
    unfold GetFlashcard at h
    split_ifs at h with hc
    · simp only [Except.ok.injEq] at h
      subst h
      exact ⟨List.mem_cons_self _ _, hc⟩
    · exact ⟨List.mem_cons_of_mem _ (ih h).1, (ih h).2⟩

theorem GetFlashcard_absent {cards : List Flashcard} {id : String}
    (h : ∀ c ∈ cards, c.ID ≠ id) : GetFlashcard cards id = .error (.notFound id) := by
  induction cards with
  | nil => rfl
  | cons c cs ih =>
    unfold GetFlashcard
    rw [if_neg (h c (List.mem_cons_self _ _))]
    exact ih (fun x hx => h x (List.mem_cons_of_mem _ hx))

theorem GetFlashcard_append_absent {cards : List Flashcard} {id : String} (extra : List Flashcard)
    (h : ∀ c ∈ cards, c.ID ≠ id) : GetFlashcard (cards ++ extra) id = GetFlashcard extra id := by
  induction cards with
  | nil => rfl
  | cons c cs ih =>
    rw [List.cons_append, GetFlashcard_cons, if_neg (h c (List.mem_cons_self _ _))]
    exact ih (fun x hx => h x (List.mem_cons_of_mem _ hx))

theorem GetFlashcard_append_ok {cards : List Flashcard} {id : String} {card : Flashcard}
    (extra : List Flashcard) (h : GetFlashcard cards id = .ok card) :
    GetFlashcard (cards ++ extra) id = .ok card := by
  induction cards with
  | nil => simp [GetFlashcard] at h
  | cons c cs ih =>
    rw [List.cons_append]
    unfold GetFlashcard at h ⊢
    split_ifs at h ⊢ with hc
    · exact h
    · exact ih h

/-- The save loop finds a record exactly when some record carries the card's `ID`. -/
theorem saveLoop_found (card : Flashcard) (cards : List Flashcard) :
    (saveLoop card cards).2 = true ↔ ∃ c ∈ cards, c.ID = card.ID := by
  induction cards with
  | nil => simp [saveLoop]
  | cons c cs ih =>
    unfold saveLoop
    split_ifs with hc
    · simp [hc]
    · simp [ih, hc]

/-- Looking up the saved card's own `ID` after the save loop found it. -/
theorem GetFlashcard_saveLoop_self (card : Flashcard) (cards : List Flashcard)
    (h : (saveLoop card cards).2 = true) :
    GetFlashcard (saveLoop card cards).1 card.ID = .ok card := by
  induction cards with
  | nil => simp [saveLoop] at h
  | cons c cs ih =>
    unfold saveLoop at h ⊢
    split_ifs at h ⊢ with hc
    · simp [GetFlashcard]
    · simp only [List.cons] at h ⊢
      unfold GetFlashcard
      rw [if_neg hc]
      exact ih h

/-- Looking up another `ID` is not affected by the save loop. -/
theorem GetFlashcard_saveLoop_other (card : Flashcard) (cards : List Flashcard) (id : String)
    (hid : card.ID ≠ id) :
    GetFlashcard (saveLoop card cards).1 id = GetFlashcard cards id := by
  induction cards with
  | nil => simp [saveLoop]
  | cons c cs ih =>
    unfold saveLoop
    split_ifs with hc
    · have : c.ID ≠ id := hc ▸ hid
      simp [GetFlashcard, hid, this]
    · simp only [List.cons]
      unfold GetFlashcard
      rw [ih]

/-- The records after the save loop are old records or the saved card. -/
theorem mem_saveLoop {card : Flashcard} {cards : List Flashcard} {x : Flashcard}
    (h : x ∈ (saveLoop card cards).1) : x ∈ cards ∨ x = card := by
  induction cards with
  | nil => simp [saveLoop] at h
  | cons c cs ih =>
    unfold saveLoop at h
    split_ifs at h with hc
    · rcases List.mem_cons.1 h with h | h
      · exact Or.inr h
      · exact Or.inl (List.mem_cons_of_mem _ h)
    · rcases List.mem_cons.1 h with h | h
      · exact Or.inl (h ▸ List.mem_cons_self _ _)
      · rcases ih h with h | h
        · exact Or.inl (List.mem_cons_of_mem _ h)
        · exact Or.inr h

/-- The due-cards loop computes the filter of the stored list. -/
theorem dueLoop_eq_filter (time : Time) (cards acc : List Flashcard) :
    cards.foldl
      (fun dueCards card => if card.NextReview < time then dueCards ++ [card] else dueCards) acc
      = acc ++ cards.filter (fun card => decide (card.NextReview < time)) := by
  induction cards generalizing acc with
  | nil => simp
  | cons c cs ih =>
    rw [List.foldl_cons, ih]
    by_cases hc : c.NextReview < time
    · simp [hc, List.filter_cons]
    · simp [hc, List.filter_cons]

theorem GetFlashcardsDueBefore_eq (cards : List Flashcard) (time : Time) :
    GetFlashcardsDueBefore cards time
      = .ok (cards.filter (fun card => decide (card.NextReview < time))) := by
  unfold GetFlashcardsDueBefore
  rw [dueLoop_eq_filter, List.nil_append]

/-- The delete loop keeps the records of another `ID`, in order, and raises the
flag when it meets the `ID`. -/
theorem deleteLoop_eq (id : String) (cards newCards : List Flashcard) (found : Bool) :
    deleteLoop id cards (newCards, found)
      = (newCards ++ cards.filter (fun card => decide (card.ID ≠ id)),
         found || cards.any (fun card => decide (card.ID = id))) := by
  induction cards generalizing newCards found with
  | nil => simp [deleteLoop]
  | cons c cs ih =>
    unfold deleteLoop
    by_cases hc : c.ID = id
    · simp [hc, ih]
    · simp [hc, ih, List.filter_cons]

end storage

namespace storage

theorem assignID_of_ne {fresh : String} {card : Flashcard} (h : card.ID ≠ "") :
    assignID fresh card = card := if_neg h

theorem assignID_fields (fresh : String) (card : Flashcard) :
    (assignID fresh card).NoteID = card.NoteID ∧ (assignID fresh card).Question = card.Question ∧
    (assignID fresh card).Answer = card.Answer ∧ (assignID fresh card).Difficulty = card.Difficulty ∧
    (assignID fresh card).RepCount = card.RepCount ∧
    (assignID fresh card).LastReview = card.LastReview ∧
    (assignID fresh card).NextReview = card.NextReview := by
  unfold assignID
  split_ifs <;> simp

/-- After `SaveFlashcard`, the saved card (with its final `ID`) is what a lookup of
that `ID` returns, provided the `ID` was already stored. -/
theorem GetFlashcard_SaveFlashcard_self (cards : List Flashcard) (fresh : String)
    (card : Flashcard) (hmem : ∃ c ∈ cards, c.ID = (assignID fresh card).ID) :
    GetFlashcard (SaveFlashcard cards fresh card).cards (assignID fresh card).ID
      = .ok (assignID fresh card) := by
  have hfound : (saveLoop (assignID fresh card) cards).2 = true := (saveLoop_found _ cards).2 hmem
  simp only [SaveFlashcard, hfound, if_true]
  exact GetFlashcard_saveLoop_self _ cards hfound

/-- After `SaveFlashcard`, a lookup that succeeded before under an `ID` other than
the final `ID` of the saved card returns the same record. -/
theorem GetFlashcard_SaveFlashcard_other (cards : List Flashcard) (fresh : String)
    (card stored : Flashcard) (id : String) (hid : (assignID fresh card).ID ≠ id)
    (hget : GetFlashcard cards id = .ok stored) :
    GetFlashcard (SaveFlashcard cards fresh card).cards id = .ok stored := by
  simp only [SaveFlashcard]
  split_ifs with h
  · rw [GetFlashcard_saveLoop_other _ _ _ hid]; exact hget
  · apply GetFlashcard_append_ok
    rw [GetFlashcard_saveLoop_other _ _ _ hid]; exact hget

/-- Every record after `SaveFlashcard` is an old record or the saved card, and
the saved card is among them. -/
theorem mem_SaveFlashcard (cards : List Flashcard) (fresh : String) (card : Flashcard) :
    assignID fresh card ∈ (SaveFlashcard cards fresh card).cards ∧
    ∀ x ∈ (SaveFlashcard cards fresh card).cards, x ∈ cards ∨ x = assignID fresh card := by
  simp only [SaveFlashcard]
  split_ifs with h
  · refine ⟨?_, fun x hx => mem_saveLoop hx⟩
    have := GetFlashcard_ok_mem (GetFlashcard_saveLoop_self _ cards h)
    exact this.1
  · refine ⟨by simp, fun x hx => ?_⟩
    rcases List.mem_append.1 hx with hx | hx
    · exact mem_saveLoop hx
    · exact Or.inr (by simpa using hx)

end storage

namespace scheduler

open storage

/-- For a rating in `0..3` and a non-negative repetition count the table lookup
is in range and reads row `difficulty` at position `min repCount 3`. -/
theorem nextInterval_table (d r : Int) (hd : d = 0 ∨ d = 1 ∨ d = 2 ∨ d = 3) (hr : 0 ≤ r) :
    ∃ row hours, intervals[d.toNat]? = some row ∧ row[(Min.min r 3).toNat]? = some hours ∧
      nextInterval d r = .ok hours := by
  have hcases : r = 0 ∨ r = 1 ∨ r = 2 ∨ 3 ≤ r := by omega
  rcases hd with rfl | rfl | rfl | rfl <;> rcases hcases with rfl | rfl | rfl | h3
  all_goals first
    | exact ⟨_, _, rfl, rfl, rfl⟩
    | (have hm : Min.min r 3 = 3 := min_eq_right h3
       have hs : scheduler.min r 3 = 3 := if_neg (not_lt.2 h3)
       refine ⟨_, _, rfl, by rw [hm]; rfl, ?_⟩
       simp only [nextInterval, index, intervals]
       simp [hs])

/-- What `UpdateFlashcard` does to a stored card with a non-empty `ID` once the
table lookup has given `hours`. -/
theorem UpdateFlashcard_found (cards : List Flashcard) (now : Time) (fresh id : String)
    (d hours : Int) (card : Flashcard) (hid : id ≠ "")
    (hget : GetFlashcard cards id = .ok card)
    (hlook : nextInterval d card.RepCount = .ok hours) :
    (UpdateFlashcard cards now fresh id d).err = none ∧
    GetFlashcard (UpdateFlashcard cards now fresh id d).cards id
      = .ok (review card now hours d) := by
  have hcard := GetFlashcard_ok_mem hget
  have hrid : (review card now hours d).ID = id := hcard.2
  have hassign : assignID fresh (review card now hours d) = review card now hours d :=
    assignID_of_ne (by rw [hrid]; exact hid)
  simp only [UpdateFlashcard, hget, hlook, storage.UpdateFlashcard]
  refine ⟨rfl, ?_⟩
  have := GetFlashcard_SaveFlashcard_self cards fresh (review card now hours d)
    ⟨card, hcard.1, by rw [hassign, hrid]; exact hcard.2⟩
  rwa [hassign, hrid] at this

end scheduler

/-! ## The store invariant -/

namespace storage

/-- On a store with assigned identifiers, an identifier that is found is not empty. -/
theorem IDsAssigned_found {cards : List Flashcard} {id : String} {card : Flashcard}
    (hstore : IDsAssigned cards) (hget : GetFlashcard cards id = .ok card) : id ≠ "" := by
  have h := GetFlashcard_ok_mem hget
  rw [← h.2]
  exact hstore card h.1

theorem IDsAssigned_SaveFlashcard (cards : List Flashcard) (fresh : String) (card : Flashcard)
    (hfresh : fresh ≠ "") (hstore : IDsAssigned cards) :
    IDsAssigned (SaveFlashcard cards fresh card).cards := by
  intro c hc
  rcases (mem_SaveFlashcard cards fresh card).2 c hc with hold | hnew
  · exact hstore c hold
  · rw [hnew]
    unfold assignID
    split_ifs with h
    · exact hfresh
    · exact h

theorem IDsAssigned_DeleteFlashcard (cards : List Flashcard) (id : String)
    (hstore : IDsAssigned cards) : IDsAssigned (DeleteFlashcard cards id).cards := by
  intro c hc
  simp only [DeleteFlashcard, deleteLoop_eq, List.nil_append, Bool.false_or] at hc
  split_ifs at hc
  · exact hstore c hc
  · exact hstore c (List.mem_filter.1 hc).1

end storage

open storage in
/-- The store invariant holds of the initial file `[]` and is preserved by every
operation that writes the flashcard file, the generated identifier being non-empty
(a uuid string has 36 characters). -/
theorem IDsAssigned_preserved :
    IDsAssigned [] ∧
    (∀ (cards : List Flashcard) (fresh : String) (card : Flashcard), fresh ≠ "" →
      IDsAssigned cards → IDsAssigned (SaveFlashcard cards fresh card).cards) ∧
    (∀ (cards : List Flashcard) (now : Time) (fresh id : String) (d : Int), fresh ≠ "" →
      IDsAssigned cards → IDsAssigned (scheduler.UpdateFlashcard cards now fresh id d).cards) ∧
    (∀ (cards : List Flashcard) (id : String),
      IDsAssigned cards → IDsAssigned (DeleteFlashcard cards id).cards) ∧
    (∀ cards : List Flashcard, IDsAssigned (DeleteAllFlashcards cards).cards) := by
  refine ⟨fun c hc => absurd hc (List.not_mem_nil c), IDsAssigned_SaveFlashcard, ?_,
    IDsAssigned_DeleteFlashcard, fun _ c hc => absurd hc (List.not_mem_nil c)⟩
  intro cards now fresh id d hfresh hstore
  cases hget : GetFlashcard cards id with
  | error e =>
    simp only [scheduler.UpdateFlashcard, hget]
    exact hstore
  | ok card =>
    cases hlook : scheduler.nextInterval d card.RepCount with
    | error e =>
      simp only [scheduler.UpdateFlashcard, hget, hlook]
      exact hstore
    | ok hours =>
      simp only [scheduler.UpdateFlashcard, hget, hlook, storage.UpdateFlashcard]
      exact IDsAssigned_SaveFlashcard cards fresh _ hfresh hstore

/-! ## The scheduler's update -/

open storage in
/-- C1: on a store of the program (every record carries an assigned `ID`), if a card
is stored under `id` with repetition count `r ≥ 0` and the rating `d` is one of
0, 1, 2, 3, then `scheduler.UpdateFlashcard` succeeds and the card stored under `id`
afterwards has `RepCount = r + 1`, `Difficulty = d` and
`NextReview = now + intervals[d][min r 3]` hours, `r` being the count before the update. -/
theorem UpdateFlashcard_reschedules (cards : List Flashcard) (now : Time) (fresh id : String)
    (d : Int) (card : Flashcard) (hstore : IDsAssigned cards)
    (hget : GetFlashcard cards id = .ok card)
    (hr : 0 ≤ card.RepCount) (hd : d = 0 ∨ d = 1 ∨ d = 2 ∨ d = 3) :
    (scheduler.UpdateFlashcard cards now fresh id d).err = none ∧
    ∃ card' row hours,
      GetFlashcard (scheduler.UpdateFlashcard cards now fresh id d).cards id = .ok card' ∧
      card'.RepCount = card.RepCount + 1 ∧ card'.Difficulty = d ∧
      scheduler.intervals[d.toNat]? = some row ∧
      row[(Min.min card.RepCount 3).toNat]? = some hours ∧
      card'.NextReview = now + hours * Hour := by
  have hid : id ≠ "" := IDsAssigned_found hstore hget
  obtain ⟨row, hours, hrow, hcol, hlook⟩ := scheduler.nextInterval_table d card.RepCount hd hr
  obtain ⟨herr, hstored⟩ :=
    scheduler.UpdateFlashcard_found cards now fresh id d hours card hid hget hlook
  exact ⟨herr, _, row, hours, hstored, rfl, rfl, hrow, hcol, rfl⟩

open storage in
/-- Witness for C1: rating Again on a card reviewed five times. -/
theorem UpdateFlashcard_reschedules_witness :
    (scheduler.UpdateFlashcard [sample.fresh, sample.seasoned] 1000 sample.uuid "c-2" 3).err = none ∧
    ∃ card' row hours,
      GetFlashcard
        (scheduler.UpdateFlashcard [sample.fresh, sample.seasoned] 1000 sample.uuid "c-2" 3).cards
        "c-2" = .ok card' ∧
      card'.RepCount = sample.seasoned.RepCount + 1 ∧ card'.Difficulty = 3 ∧
      scheduler.intervals[(3 : Int).toNat]? = some row ∧
      row[(Min.min sample.seasoned.RepCount 3).toNat]? = some hours ∧
      card'.NextReview = 1000 + hours * Hour :=
  UpdateFlashcard_reschedules [sample.fresh, sample.seasoned] 1000 sample.uuid "c-2" 3
    sample.seasoned (by decide) rfl (by decide) (by decide)

open storage in
/-- C2 (amended): when the store holds a card under `id` and `scheduler.UpdateFlashcard`
succeeds, the card stored under `id` afterwards has the `LastReview` it had before;
the update does not assign `LastReview`. -/
theorem UpdateFlashcard_keeps_LastReview (cards : List Flashcard) (now : Time)
    (fresh id : String) (d : Int) (card : Flashcard)
    (hget : GetFlashcard cards id = .ok card)
    (hok : (scheduler.UpdateFlashcard cards now fresh id d).err = none) :
    ∃ card', GetFlashcard (scheduler.UpdateFlashcard cards now fresh id d).cards id = .ok card' ∧
      card'.LastReview = card.LastReview := by
  have hcard := GetFlashcard_ok_mem hget
  cases hlook : scheduler.nextInterval d card.RepCount with
  | error e => simp [scheduler.UpdateFlashcard, hget, hlook] at hok
  | ok hours =>
    simp only [scheduler.UpdateFlashcard, hget, hlook, storage.UpdateFlashcard]
    have hrid : (scheduler.review card now hours d).ID = id := hcard.2
    by_cases hfin : (assignID fresh (scheduler.review card now hours d)).ID = id
    · have := GetFlashcard_SaveFlashcard_self cards fresh (scheduler.review card now hours d)
        ⟨card, hcard.1, by rw [hfin]; exact hcard.2⟩
      rw [hfin] at this
      exact ⟨_, this, (assignID_fields fresh _).2.2.2.2.2.1⟩
    · exact ⟨card, GetFlashcard_SaveFlashcard_other _ _ _ _ _ hfin hget, rfl⟩

open storage in
/-- Witness for C2: a review of the card reviewed five times. -/
theorem UpdateFlashcard_keeps_LastReview_witness :
    ∃ card',
      GetFlashcard
        (scheduler.UpdateFlashcard [sample.fresh, sample.seasoned] 1000 sample.uuid "c-2" 3).cards
        "c-2" = .ok card' ∧
      card'.LastReview = sample.seasoned.LastReview :=
  UpdateFlashcard_keeps_LastReview [sample.fresh, sample.seasoned] 1000 sample.uuid "c-2" 3
    sample.seasoned rfl rfl

open storage in
/-- C2 as stated fails: a card with `LastReview = 0` is reviewed at time 1000 with
rating 1; the update succeeds and the stored card's `LastReview` is still 0, not 1000. -/
theorem UpdateFlashcard_LastReview_not_now :
    GetFlashcard [sample.fresh] "c-1" = .ok sample.fresh ∧
    (scheduler.UpdateFlashcard [sample.fresh] 1000 sample.uuid "c-1" 1).err = none ∧
    ∃ card',
      GetFlashcard (scheduler.UpdateFlashcard [sample.fresh] 1000 sample.uuid "c-1" 1).cards "c-1"
        = .ok card' ∧
      card'.LastReview = 0 ∧ card'.LastReview ≠ 1000 :=
  ⟨rfl, rfl, _, rfl, rfl, by decide⟩

/-! ## The interval table -/

/-- C3: for every difficulty `d` in 0..3 and every repetition count `r ≥ 4`, the
lookup `intervals[d][min(r, len(intervals[d])-1)]` is in range (no panic), equals the
lookup for `r = 3`, and is the last entry of row `d`: 432, 172, 72, 8 hours for
Easy, Good, Hard, Again. -/
theorem nextInterval_clamped (d r : Int) (hd : d = 0 ∨ d = 1 ∨ d = 2 ∨ d = 3) (hr : 4 ≤ r) :
    scheduler.nextInterval d r = scheduler.nextInterval d 3 ∧
    scheduler.nextInterval d r
      = .ok (if d = 0 then 432 else if d = 1 then 172 else if d = 2 then 72 else 8) ∧
    ∃ row, scheduler.intervals[d.toNat]? = some row ∧ row.length = 4 ∧
      0 ≤ scheduler.min r ((row.length : Int) - 1) ∧
      scheduler.min r ((row.length : Int) - 1) < row.length ∧
      scheduler.nextInterval d r = (row.getLast?.elim (.error .indexOutOfRange) .ok) := by
  have hs : scheduler.min r 3 = 3 := if_neg (by omega)
  have h3 : scheduler.min 3 3 = 3 := rfl
  rcases hd with rfl | rfl | rfl | rfl
  all_goals
    refine ⟨?_, ?_, _, rfl, rfl, ?_, ?_, ?_⟩
    all_goals
      simp only [scheduler.nextInterval, scheduler.index, scheduler.intervals]
      simp [hs, h3]

/-- Witness for C3: Again at repetition count 5 gives 8 hours. -/
theorem nextInterval_clamped_witness :
    scheduler.nextInterval 3 5 = scheduler.nextInterval 3 3 ∧
    scheduler.nextInterval 3 5 = .ok 8 :=
  ⟨(nextInterval_clamped 3 5 (by decide) (by decide)).1,
   (nextInterval_clamped 3 5 (by decide) (by decide)).2.1⟩

/-! ## Due cards -/

open storage in
/-- C4: `GetFlashcardsDueBefore t` returns, without error, exactly the stored cards
whose `NextReview` is strictly before `t`, in store order: the result is the filter of
the stored list, a card is in it iff it is stored and due, a card with
`NextReview = t` is excluded, the result is empty when no card qualifies, and a
second call on the same store with the same `t` returns the same list. -/
theorem GetFlashcardsDueBefore_exact (cards : List Flashcard) (t : Time) :
    ∃ due, GetFlashcardsDueBefore cards t = .ok due ∧
      due = cards.filter (fun card => decide (card.NextReview < t)) ∧
      List.Sublist due cards ∧
      (∀ card, card ∈ due ↔ card ∈ cards ∧ card.NextReview < t) ∧
      (∀ card ∈ cards, card.NextReview = t → card ∉ due) ∧
      ((∀ card ∈ cards, ¬ card.NextReview < t) → due = []) ∧
      (∀ again, GetFlashcardsDueBefore cards t = .ok again → again = due) := by
  refine ⟨_, GetFlashcardsDueBefore_eq cards t, rfl, List.filter_sublist _, ?_, ?_, ?_, ?_⟩
  · intro card
    simp [List.mem_filter]
  · intro card _ ht
    simp [List.mem_filter, ht]
  · intro h
    simpa [List.filter_eq_nil_iff] using h
  · intro again hagain
    rw [GetFlashcardsDueBefore_eq, Except.ok.injEq] at hagain
    exact hagain.symm

open storage in
/-- Witness for C4: of two stored cards only the one due before `t = 5000` is
returned; the card with `NextReview = 5000` is left out. -/
theorem GetFlashcardsDueBefore_exact_witness :
    GetFlashcardsDueBefore [sample.fresh, sample.seasoned] 5000 = .ok [sample.fresh] ∧
    ∃ due, GetFlashcardsDueBefore [sample.fresh, sample.seasoned] 5000 = .ok due ∧
      sample.seasoned ∉ due :=
  ⟨rfl, by
    obtain ⟨due, h1, _, _, _, h5, _, _⟩ :=
      GetFlashcardsDueBefore_exact [sample.fresh, sample.seasoned] 5000
    exact ⟨due, h1, h5 sample.seasoned (by decide) rfl⟩⟩

/-! ## Not found -/

open storage in
/-- C5: when no stored card carries `id`, `scheduler.UpdateFlashcard id d` returns the
not-found error for every rating `d` and the stored list is unchanged. -/
theorem UpdateFlashcard_notFound (cards : List Flashcard) (now : Time) (fresh id : String)
    (d : Int) (h : ∀ c ∈ cards, c.ID ≠ id) :
    scheduler.UpdateFlashcard cards now fresh id d
      = { err := some (.notFound id), cards := cards } := by
  simp only [scheduler.UpdateFlashcard, GetFlashcard_absent h]

open storage in
/-- Witness for C5: an unknown identifier and a rating outside the table. -/
theorem UpdateFlashcard_notFound_witness :
    scheduler.UpdateFlashcard [sample.fresh, sample.seasoned] 1000 sample.uuid "c-9" 7
      = { err := some (.notFound "c-9"), cards := [sample.fresh, sample.seasoned] } :=
  UpdateFlashcard_notFound [sample.fresh, sample.seasoned] 1000 sample.uuid "c-9" 7 (by decide)

/-! ## Deletion -/

namespace storage

theorem DeleteFlashcard_eq (cards : List Flashcard) (id : String) :
    DeleteFlashcard cards id
      = if cards.any (fun card => decide (card.ID = id))
        then { err := none, cards := cards.filter (fun card => decide (card.ID ≠ id)) }
        else { err := some (.notFound id), cards := cards } := by
  simp only [DeleteFlashcard, deleteLoop_eq, List.nil_append, Bool.false_or]
  cases cards.any (fun card => decide (card.ID = id)) <;> simp

end storage

open storage in
/-- C6: `DeleteFlashcard id` fails iff no stored card has that `ID`, and then the error
is not-found and the store is unchanged; otherwise it succeeds and the new store is
the old list without the cards of that `ID`, the others in their order, so `id`
appears neither in `GetAllFlashcards` nor in `GetFlashcardsDueBefore t` for any `t`. -/
theorem DeleteFlashcard_spec (cards : List Flashcard) (id : String) :
    ((DeleteFlashcard cards id).err ≠ none ↔ ∀ c ∈ cards, c.ID ≠ id) ∧
    ((∀ c ∈ cards, c.ID ≠ id) →
      DeleteFlashcard cards id = { err := some (.notFound id), cards := cards }) ∧
    ((∃ c ∈ cards, c.ID = id) →
      (DeleteFlashcard cards id).err = none ∧
      (DeleteFlashcard cards id).cards = cards.filter (fun card => decide (card.ID ≠ id)) ∧
      (∀ all, GetAllFlashcards (DeleteFlashcard cards id).cards = .ok all →
        ∀ c ∈ all, c.ID ≠ id) ∧
      (∀ t due, GetFlashcardsDueBefore (DeleteFlashcard cards id).cards t = .ok due →
        ∀ c ∈ due, c.ID ≠ id)) := by
  rw [DeleteFlashcard_eq]
  by_cases hany : cards.any (fun card => decide (card.ID = id)) = true
  · have hex : ∃ c ∈ cards, c.ID = id := by simpa using hany
    have hnot : ¬ ∀ c ∈ cards, c.ID ≠ id := by
      obtain ⟨c, hc, hci⟩ := hex
      exact fun h => h c hc hci
    rw [if_pos hany]
    refine ⟨by simp [hnot], fun h => absurd h hnot, fun _ => ⟨rfl, rfl, ?_, ?_⟩⟩
    · intro all hall c hc
      simp only [GetAllFlashcards, Except.ok.injEq] at hall
      subst hall
      simpa using (List.mem_filter.1 hc).2
    · intro t due hdue c hc
      rw [GetFlashcardsDueBefore_eq, Except.ok.injEq] at hdue
      subst hdue
      simpa using (List.mem_filter.1 (List.mem_filter.1 hc).1).2
  · have hall : ∀ c ∈ cards, c.ID ≠ id := by simpa using hany
    have hnex : ¬ ∃ c ∈ cards, c.ID = id := by
      rintro ⟨c, hc, hci⟩
      exact hall c hc hci
    rw [if_neg hany]
    exact ⟨by simpa using hall, fun _ => rfl, fun h => absurd h hnex⟩

open storage in
/-- Witness for C6: deleting a stored card and deleting an unknown identifier. -/
theorem DeleteFlashcard_spec_witness :
    DeleteFlashcard [sample.fresh, sample.seasoned] "c-1"
      = { err := none, cards := [sample.seasoned] } ∧
    DeleteFlashcard [sample.fresh, sample.seasoned] "c-9"
      = { err := some (.notFound "c-9"), cards := [sample.fresh, sample.seasoned] } ∧
    (DeleteFlashcard [sample.fresh, sample.seasoned] "c-1").cards
      = [sample.fresh, sample.seasoned].filter (fun card => decide (card.ID ≠ "c-1")) :=
  ⟨by decide,
   (DeleteFlashcard_spec [sample.fresh, sample.seasoned] "c-9").2.1 (by decide),
   ((DeleteFlashcard_spec [sample.fresh, sample.seasoned] "c-1").2.2
      ⟨sample.fresh, by decide, by decide⟩).2.1⟩

/-! ## Two reviews in a row -/

open storage in
/-- C8: for a store of the program (every record carries an assigned `ID`) holding a
card under `id` at repetition count 0, `UpdateFlashcard id 0` (Easy) at time
`t1` succeeds and leaves `NextReview = t1 + 0` hours and `RepCount = 1`; a second
`UpdateFlashcard id 0` at time `t2` on the resulting store reads that card back,
succeeds and leaves `NextReview = t2 + 24` hours and `RepCount = 2`. -/
theorem UpdateFlashcard_easy_twice (cards : List Flashcard) (t1 t2 : Time)
    (fresh1 fresh2 id : String) (card : Flashcard) (hstore : IDsAssigned cards)
    (hget : GetFlashcard cards id = .ok card) (hr : card.RepCount = 0) :
    (scheduler.UpdateFlashcard cards t1 fresh1 id 0).err = none ∧
    ∃ first, GetFlashcard (scheduler.UpdateFlashcard cards t1 fresh1 id 0).cards id = .ok first ∧
      first.NextReview = t1 + 0 * Hour ∧ first.RepCount = 1 ∧
      (scheduler.UpdateFlashcard (scheduler.UpdateFlashcard cards t1 fresh1 id 0).cards
        t2 fresh2 id 0).err = none ∧
      ∃ second,
        GetFlashcard (scheduler.UpdateFlashcard
          (scheduler.UpdateFlashcard cards t1 fresh1 id 0).cards t2 fresh2 id 0).cards id
          = .ok second ∧
        second.NextReview = t2 + 24 * Hour ∧ second.RepCount = 2 := by
  have hid : id ≠ "" := IDsAssigned_found hstore hget
  have hlook1 : scheduler.nextInterval 0 card.RepCount = .ok 0 := by rw [hr]; rfl
  obtain ⟨herr1, hst1⟩ :=
    scheduler.UpdateFlashcard_found cards t1 fresh1 id 0 0 card hid hget hlook1
  have hrep1 : (scheduler.review card t1 0 0).RepCount = 1 := by
    show card.RepCount + 1 = 1
    rw [hr]; rfl
  have hlook2 : scheduler.nextInterval 0 (scheduler.review card t1 0 0).RepCount = .ok 24 := by
    rw [hrep1]; rfl
  obtain ⟨herr2, hst2⟩ :=
    scheduler.UpdateFlashcard_found _ t2 fresh2 id 0 24 _ hid hst1 hlook2
  refine ⟨herr1, _, hst1, rfl, hrep1, herr2, _, hst2, rfl, ?_⟩
  show (scheduler.review card t1 0 0).RepCount + 1 = 2
  rw [hrep1]; rfl

open storage in
/-- Witness for C8: the never-reviewed sample card rated Easy at 1000 and at 2000. -/
theorem UpdateFlashcard_easy_twice_witness :
    (scheduler.UpdateFlashcard [sample.fresh] 1000 sample.uuid "c-1" 0).err = none ∧
    ∃ first,
      GetFlashcard (scheduler.UpdateFlashcard [sample.fresh] 1000 sample.uuid "c-1" 0).cards "c-1"
        = .ok first ∧
      first.NextReview = 1000 + 0 * Hour ∧ first.RepCount = 1 ∧
      (scheduler.UpdateFlashcard
        (scheduler.UpdateFlashcard [sample.fresh] 1000 sample.uuid "c-1" 0).cards
        2000 sample.uuid "c-1" 0).err = none ∧
      ∃ second,
        GetFlashcard (scheduler.UpdateFlashcard
          (scheduler.UpdateFlashcard [sample.fresh] 1000 sample.uuid "c-1" 0).cards
          2000 sample.uuid "c-1" 0).cards "c-1" = .ok second ∧
        second.NextReview = 2000 + 24 * Hour ∧ second.RepCount = 2 :=
  UpdateFlashcard_easy_twice [sample.fresh] 1000 2000 sample.uuid sample.uuid "c-1"
    sample.fresh (by decide) rfl rfl

/-! ## Statistics -/

namespace storage

theorem statsStep_fields (today tomorrow : Time) (k : Counters) (c : Flashcard) :
    (statsStep today tomorrow k c).totalReps = k.totalReps + (if c.RepCount > 0 then 1 else 0) ∧
    (statsStep today tomorrow k c).learned = k.learned + (if c.RepCount > 0 then 1 else 0) ∧
    (statsStep today tomorrow k c).totalDifficulty
      = k.totalDifficulty + (if c.RepCount > 0 then c.Difficulty else 0) := by
  unfold statsStep
  split_ifs <;> simp

theorem learnedCards_cons (c : Flashcard) (cs : List Flashcard) :
    spec.learnedCards (c :: cs)
      = if c.RepCount > 0 then c :: spec.learnedCards cs else spec.learnedCards cs := by
  unfold spec.learnedCards
  by_cases hc : c.RepCount > 0 <;> simp [List.filter_cons, hc]

/-- The counters after the statistics loop, in terms of the stored list. -/
theorem statsLoop_counters (today tomorrow : Time) (cards : List Flashcard) (k : Counters) :
    (cards.foldl (statsStep today tomorrow) k).totalReps
      = k.totalReps + ((spec.learnedCards cards).length : Int) ∧
    (cards.foldl (statsStep today tomorrow) k).learned
      = k.learned + ((spec.learnedCards cards).length : Int) ∧
    (cards.foldl (statsStep today tomorrow) k).totalDifficulty
      = k.totalDifficulty + ((spec.learnedCards cards).map (fun card => card.Difficulty)).sum := by
  induction cards generalizing k with
  | nil => simp [spec.learnedCards]
  | cons c cs ih =>
    rw [List.foldl_cons]
    obtain ⟨h1, h2, h3⟩ := ih (statsStep today tomorrow k c)
    obtain ⟨s1, s2, s3⟩ := statsStep_fields today tomorrow k c
    rw [h1, h2, h3, s1, s2, s3, learnedCards_cons]
    by_cases hc : c.RepCount > 0
    · simp only [if_pos hc, List.length_cons, List.map_cons, List.sum_cons, Nat.cast_succ]
      refine ⟨?_, ?_, ?_⟩ <;> ring
    · simp [if_neg hc]

theorem sum_difficulty_bounds (cards : List Flashcard) (lo hi : Int)
    (h : ∀ c ∈ cards, lo ≤ c.Difficulty ∧ c.Difficulty ≤ hi) :
    lo * (cards.length : Int) ≤ (cards.map (fun card => card.Difficulty)).sum ∧
    (cards.map (fun card => card.Difficulty)).sum ≤ hi * (cards.length : Int) := by
  induction cards with
  | nil => simp
  | cons c cs ih =>
    obtain ⟨h1, h2⟩ := ih (fun x hx => h x (List.mem_cons_of_mem _ hx))
    obtain ⟨h3, h4⟩ := h c (List.mem_cons_self _ _)
    simp only [List.map_cons, List.sum_cons, List.length_cons, Nat.cast_succ]
    constructor <;> nlinarith

end storage

open storage in
/-- C7: the `ReviewAccuracy` of `GetStudyStats` is computed without error; it is 0 when
no card has `RepCount > 0`, and otherwise `100 * (1 - m / 3)` with `m` the mean
`Difficulty` over exactly the cards with `RepCount > 0`, in exact rationals; hence it is
100 when every learned card has difficulty 0, 0 when every learned card has difficulty
3, and within `[0, 100]` when every learned card's difficulty is in 0..3. -/
theorem GetStudyStats_accuracy (notes : List Note) (cards : List Flashcard) (now : Time) :
    ∃ stats, GetStudyStats notes cards now = .ok stats ∧
      (spec.learnedCards cards = [] → stats.ReviewAccuracy = 0) ∧
      (spec.learnedCards cards ≠ [] →
        stats.ReviewAccuracy = 100 * (1 - spec.meanDifficultyOfLearnedCards cards / 3)) ∧
      (spec.learnedCards cards ≠ [] → (∀ c ∈ spec.learnedCards cards, c.Difficulty = 0) →
        stats.ReviewAccuracy = 100) ∧
      (spec.learnedCards cards ≠ [] → (∀ c ∈ spec.learnedCards cards, c.Difficulty = 3) →
        stats.ReviewAccuracy = 0) ∧
      ((∀ c ∈ spec.learnedCards cards, 0 ≤ c.Difficulty ∧ c.Difficulty ≤ 3) →
        0 ≤ stats.ReviewAccuracy ∧ stats.ReviewAccuracy ≤ 100) := by
  obtain ⟨hreps, -, hdiff⟩ := statsLoop_counters now (now + 24 * Hour) cards ⟨0, 0, 0, 0⟩
  simp only [zero_add] at hreps hdiff
  refine ⟨_, rfl, ?_⟩
  simp only [hreps, hdiff]
  by_cases hl : spec.learnedCards cards = []
  · simp [hl]
  · have hlen : 0 < (spec.learnedCards cards).length := List.length_pos.2 hl
    have hpos : ((spec.learnedCards cards).length : Int) > 0 := by exact_mod_cast hlen
    have hposq : (0 : ℚ) < (((spec.learnedCards cards).length : Int) : ℚ) := by exact_mod_cast hlen
    have hacc : ∀ lo hi : Int, (∀ c ∈ spec.learnedCards cards, lo ≤ c.Difficulty ∧ c.Difficulty ≤ hi) →
        (lo : ℚ) ≤ spec.meanDifficultyOfLearnedCards cards ∧
        spec.meanDifficultyOfLearnedCards cards ≤ (hi : ℚ) := by
      intro lo hi h
      obtain ⟨h1, h2⟩ := sum_difficulty_bounds _ lo hi h
      unfold spec.meanDifficultyOfLearnedCards
      constructor
      · rw [le_div_iff₀ hposq]; exact_mod_cast h1
      · rw [div_le_iff₀ hposq]; exact_mod_cast h2
    rw [if_pos hpos]
    have hmean : spec.meanDifficultyOfLearnedCards cards
        = ((((spec.learnedCards cards).map (fun card => card.Difficulty)).sum : Int) : ℚ)
          / (((spec.learnedCards cards).length : Int) : ℚ) := rfl
    rw [← hmean]
    refine ⟨fun h => absurd h hl, fun _ => rfl, fun _ h0 => ?_, fun _ h3 => ?_, fun hr => ?_⟩
    · obtain ⟨h1, h2⟩ := hacc 0 0 (fun c hc => by rw [h0 c hc]; exact ⟨le_refl _, le_refl _⟩)
      have : spec.meanDifficultyOfLearnedCards cards = 0 := le_antisymm (by exact_mod_cast h2) (by exact_mod_cast h1)
      rw [this]; norm_num
    · obtain ⟨h1, h2⟩ := hacc 3 3 (fun c hc => by rw [h3 c hc]; exact ⟨le_refl _, le_refl _⟩)
      have : spec.meanDifficultyOfLearnedCards cards = 3 := le_antisymm (by exact_mod_cast h2) (by exact_mod_cast h1)
      rw [this]; norm_num
    · obtain ⟨h1, h2⟩ := hacc 0 3 hr
      have h1' : (0 : ℚ) ≤ spec.meanDifficultyOfLearnedCards cards := by exact_mod_cast h1
      have h2' : spec.meanDifficultyOfLearnedCards cards ≤ 3 := by exact_mod_cast h2
      constructor <;> linarith

open storage in
/-- Witness for C7: one never-reviewed card and one learned card rated Again. -/
theorem GetStudyStats_accuracy_witness :
    ∃ stats, GetStudyStats [] [sample.fresh, sample.seasoned] 1000 = .ok stats ∧
      stats.ReviewAccuracy = 0 := by
  obtain ⟨stats, hstats, -, -, -, h3, -⟩ :=
    GetStudyStats_accuracy [] [sample.fresh, sample.seasoned] 1000
  exact ⟨stats, hstats, h3 (by decide) (by decide)⟩

/-! ## Generated cards -/

namespace processor

open storage

theorem Generated_emit (clock : Nat → Time) (noteID : String) (st : ParseState)
    (h : Generated clock noteID st.flashcards) :
    Generated clock noteID (emit clock noteID st).flashcards := by
  intro k c hk
  simp only [emit] at hk
  by_cases hlt : k < st.flashcards.length
  · rw [List.getElem?_append_left hlt] at hk
    exact h k c hk
  · rw [List.getElem?_append_right (not_lt.1 hlt)] at hk
    have hk0 : k - st.flashcards.length = 0 := by
      by_contra hne
      obtain ⟨m, hm⟩ := Nat.exists_eq_succ_of_ne_zero hne
      rw [hm] at hk
      simp at hk
    rw [hk0] at hk
    have hkeq : k = st.flashcards.length := by omega
    simp only [List.getElem?_cons_zero, Option.some.injEq] at hk
    subst hk
    subst hkeq
    exact ⟨rfl, rfl, rfl, rfl, rfl, rfl⟩

theorem Generated_parseLoop (clock : Nat → Time) (noteID : String) (lines : List String)
    (st : ParseState) (h : Generated clock noteID st.flashcards) :
    Generated clock noteID (parseLoop clock noteID lines st).flashcards := by
  induction lines generalizing st with
  | nil => exact h
  | cons raw rest ih =>
    unfold parseLoop
    simp only
    split_ifs
    all_goals apply ih
    all_goals first
      | exact h
      | exact Generated_emit clock noteID _ h

theorem Generated_parse (clock : Nat → Time) (response noteID : String)
    (result : List Flashcard)
    (h : parseFlashcardsFromResponse clock response noteID = .ok result) :
    Generated clock noteID result := by
  simp only [parseFlashcardsFromResponse, Except.ok.injEq] at h
  subst h
  exact Generated_parseLoop clock noteID _ _ (fun k c hk => by simp at hk)

end processor

theorem Second_pos : 0 < Second := by decide

open storage in
/-- C9: the card at position `k` of the result of `parseFlashcardsFromResponse`, created
at the clock reading `clock k`, has `RepCount = 0`, `Difficulty = 0` and
`NextReview = clock k`; and once saved into any store (where it receives the generated
identifier) it is returned by `GetFlashcardsDueBefore` one second after its creation. -/
theorem generated_card_due (clock : Nat → Time) (response noteID : String)
    (result : List Flashcard)
    (h : processor.parseFlashcardsFromResponse clock response noteID = .ok result)
    (k : Nat) (c : Flashcard) (hk : result[k]? = some c) :
    c.RepCount = 0 ∧ c.Difficulty = 0 ∧ c.NextReview = clock k ∧
    ∀ (cards : List Flashcard) (fresh : String),
      (SaveFlashcard cards fresh c).err = none ∧
      ∃ due, GetFlashcardsDueBefore (SaveFlashcard cards fresh c).cards (clock k + Second)
          = .ok due ∧
        { c with ID := fresh } ∈ due := by
  obtain ⟨hID, -, hD, hR, -, hN⟩ := processor.Generated_parse clock response noteID result h k c hk
  refine ⟨hR, hD, hN, fun cards fresh => ⟨rfl, _, GetFlashcardsDueBefore_eq _ _, ?_⟩⟩
  have hassign : assignID fresh c = { c with ID := fresh } := if_pos hID
  rw [List.mem_filter, ← hassign]
  refine ⟨(mem_SaveFlashcard cards fresh c).1, ?_⟩
  rw [hassign]
  simp only [decide_eq_true_eq]
  show c.NextReview < clock k + Second
  rw [hN]
  exact lt_add_of_pos_right _ Second_pos

open storage in
/-- Witness for C9: one question and answer, parsed at clock reading 1000 and saved
into a store of two cards. -/
theorem generated_card_due_witness :
    processor.parseFlashcardsFromResponse (fun k => 1000 + k) "Q: a\nA: b" "n-1"
      = .ok [processor.newFlashcard "n-1" "a" "b" 1000] ∧
    (processor.newFlashcard "n-1" "a" "b" 1000).RepCount = 0 ∧
    (processor.newFlashcard "n-1" "a" "b" 1000).Difficulty = 0 ∧
    (processor.newFlashcard "n-1" "a" "b" 1000).NextReview = 1000 ∧
    ∃ due,
      GetFlashcardsDueBefore
        (SaveFlashcard [sample.fresh, sample.seasoned] sample.uuid
          (processor.newFlashcard "n-1" "a" "b" 1000)).cards (1000 + Second) = .ok due ∧
      { processor.newFlashcard "n-1" "a" "b" 1000 with ID := sample.uuid } ∈ due := by
  have h := generated_card_due (fun k => 1000 + k) "Q: a\nA: b" "n-1"
    [processor.newFlashcard "n-1" "a" "b" 1000] (by rfl) 0
    (processor.newFlashcard "n-1" "a" "b" 1000) rfl
  exact ⟨by rfl, h.1, h.2.1, rfl, (h.2.2.2 [sample.fresh, sample.seasoned] sample.uuid).2⟩

/-! ## The invariant -/

namespace studyengine

theorem difficulty_range (input : String) :
    difficulty input = 0 ∨ difficulty input = 1 ∨ difficulty input = 2 ∨ difficulty input = 3 := by
  unfold difficulty
  simp only
  split_ifs <;> simp

end studyengine

open storage in
/-- C10: the predicate "`RepCount ≥ 0` and `Difficulty` is one of 0, 1, 2, 3" holds for
every card created by `parseFlashcardsFromResponse`; the study session's input mapping
yields a rating in 0..3 for every input string; and the predicate is preserved on every
stored card by `scheduler.UpdateFlashcard` called with such a rating, by
`DeleteFlashcard` and by `DeleteAllFlashcards` (and by `SaveFlashcard` of a card that
satisfies it). -/
theorem invariant_preserved :
    (∀ (clock : Nat → Time) (response noteID : String) (result : List Flashcard),
      processor.parseFlashcardsFromResponse clock response noteID = .ok result →
      ∀ c ∈ result, spec.Invariant c) ∧
    (∀ input : String, studyengine.difficulty input = 0 ∨ studyengine.difficulty input = 1 ∨
      studyengine.difficulty input = 2 ∨ studyengine.difficulty input = 3) ∧
    (∀ (cards : List Flashcard) (now : Time) (fresh id input : String),
      (∀ c ∈ cards, spec.Invariant c) →
      ∀ c ∈ (scheduler.UpdateFlashcard cards now fresh id (studyengine.difficulty input)).cards,
        spec.Invariant c) ∧
    (∀ (cards : List Flashcard) (id : String), (∀ c ∈ cards, spec.Invariant c) →
      ∀ c ∈ (DeleteFlashcard cards id).cards, spec.Invariant c) ∧
    (∀ cards : List Flashcard, ∀ c ∈ (DeleteAllFlashcards cards).cards, spec.Invariant c) ∧
    (∀ (cards : List Flashcard) (fresh : String) (card : Flashcard),
      (∀ c ∈ cards, spec.Invariant c) → spec.Invariant card →
      ∀ c ∈ (SaveFlashcard cards fresh card).cards, spec.Invariant c) := by
  have hsave : ∀ (cards : List Flashcard) (fresh : String) (card : Flashcard),
      (∀ c ∈ cards, spec.Invariant c) → spec.Invariant card →
      ∀ c ∈ (SaveFlashcard cards fresh card).cards, spec.Invariant c := by
    intro cards fresh card hc hcard c hmem
    rcases (mem_SaveFlashcard cards fresh card).2 c hmem with hold | hnew
    · exact hc c hold
    · obtain ⟨-, -, -, hD, hR, -, -⟩ := assignID_fields fresh card
      rw [hnew]
      unfold spec.Invariant
      rw [hD, hR]
      exact hcard
  refine ⟨?_, studyengine.difficulty_range, ?_, ?_, ?_, hsave⟩
  · intro clock response noteID result h c hc
    obtain ⟨k, hk⟩ := List.getElem?_of_mem hc
    obtain ⟨-, -, hD, hR, -, -⟩ := processor.Generated_parse clock response noteID result h k c hk
    exact ⟨by rw [hR], Or.inl hD⟩
  · intro cards now fresh id input hc
    cases hget : GetFlashcard cards id with
    | error e =>
      simp only [scheduler.UpdateFlashcard, hget]
      exact hc
    | ok card =>
      cases hlook : scheduler.nextInterval (studyengine.difficulty input) card.RepCount with
      | error e =>
        simp only [scheduler.UpdateFlashcard, hget, hlook]
        exact hc
      | ok hours =>
        simp only [scheduler.UpdateFlashcard, hget, hlook, storage.UpdateFlashcard]
        apply hsave cards fresh _ hc
        have hcard := hc card (GetFlashcard_ok_mem hget).1
        refine ⟨?_, studyengine.difficulty_range input⟩
        show 0 ≤ card.RepCount + 1
        have := hcard.1
        omega
  · intro cards id hc c hmem
    rw [DeleteFlashcard_eq] at hmem
    split_ifs at hmem
    · exact hc c (List.mem_filter.1 hmem).1
    · exact hc c hmem
  · intro cards c hmem
    simp [DeleteAllFlashcards] at hmem

open storage in
/-- Witness for C10: a review with the unrecognised input `"x"` on a store of two
cards that satisfy the predicate. -/
theorem invariant_preserved_witness :
    ∀ c ∈ (scheduler.UpdateFlashcard [sample.fresh, sample.seasoned] 1000 sample.uuid "c-2"
        (studyengine.difficulty "x")).cards, spec.Invariant c :=
  invariant_preserved.2.2.1 [sample.fresh, sample.seasoned] 1000 sample.uuid "c-2" "x"
    (by decide)

/-! ## Cards due today -/

namespace storage

theorem statsStep_dueToday (today tomorrow : Time) (k : Counters) (c : Flashcard) :
    (statsStep today tomorrow k c).dueToday
      = k.dueToday + (if c.NextReview > today ∧ c.NextReview < tomorrow then 1 else 0) := by
  unfold statsStep
  split_ifs <;> simp

/-- The `dueToday` counter after the statistics loop counts the stored cards whose
`NextReview` is after `today` and before `tomorrow`. -/
theorem statsLoop_dueToday (today tomorrow : Time) (cards : List Flashcard) (k : Counters) :
    (cards.foldl (statsStep today tomorrow) k).dueToday
      = k.dueToday + ((cards.filter
          (fun card => decide (card.NextReview > today ∧ card.NextReview < tomorrow))).length : Int) := by
  induction cards generalizing k with
  | nil => simp
  | cons c cs ih =>
    rw [List.foldl_cons, ih, statsStep_dueToday]
    by_cases hc : c.NextReview > today ∧ c.NextReview < tomorrow
    · rw [if_pos hc, List.filter_cons, if_pos (by simpa using hc), List.length_cons, Nat.cast_succ]
      ring
    · rw [if_neg hc, List.filter_cons, if_neg (by simpa using hc), add_zero]

end storage

open storage in
/-- C12: the `CardsDueToday` of `GetStudyStats` is the number of stored cards whose
`NextReview` is strictly after `now` and strictly before `now + 24h`; a card whose
`NextReview` is at or before `now` is not among the counted cards, so a store of
cards that are all already due has `CardsDueToday = 0`. -/
theorem GetStudyStats_dueToday (notes : List Note) (cards : List Flashcard) (now : Time) :
    ∃ stats, GetStudyStats notes cards now = .ok stats ∧
      stats.CardsDueToday
        = ((cards.filter (fun card =>
            decide (card.NextReview > now ∧ card.NextReview < now + 24 * Hour))).length : Int) ∧
      (∀ card, card.NextReview ≤ now →
        card ∉ cards.filter (fun card =>
          decide (card.NextReview > now ∧ card.NextReview < now + 24 * Hour))) ∧
      ((∀ card ∈ cards, card.NextReview ≤ now) → stats.CardsDueToday = 0) := by
  have hdue := statsLoop_dueToday now (now + 24 * Hour) cards ⟨0, 0, 0, 0⟩
  simp only [zero_add] at hdue
  refine ⟨_, rfl, hdue, ?_, ?_⟩
  · intro card hle hmem
    have := (List.mem_filter.1 hmem).2
    simp only [decide_eq_true_eq] at this
    exact absurd this.1 (not_lt.2 hle)
  · intro hall
    show (cards.foldl (statsStep now (now + 24 * Hour)) ⟨0, 0, 0, 0⟩).dueToday = 0
    rw [hdue]
    have : cards.filter (fun card =>
        decide (card.NextReview > now ∧ card.NextReview < now + 24 * Hour)) = [] := by
      rw [List.filter_eq_nil_iff]
      intro card hc
      simp only [decide_eq_true_eq, not_and]
      intro h
      exact absurd h (not_lt.2 (hall card hc))
    rw [this]
    rfl

open storage in
/-- Witness for C12: at time 1000 the card with `NextReview = 7` is already due and
not counted, the card with `NextReview = 5000` is counted; at time 5000 both are at or
before `now` and the count is 0. -/
theorem GetStudyStats_dueToday_witness :
    (∃ stats, GetStudyStats [] [sample.fresh, sample.seasoned] 1000 = .ok stats ∧
      stats.CardsDueToday = 1) ∧
    (∃ stats, GetStudyStats [] [sample.fresh, sample.seasoned] 5000 = .ok stats ∧
      stats.CardsDueToday = 0) := by
  obtain ⟨stats, hstats, hcount, -, -⟩ :=
    GetStudyStats_dueToday [] [sample.fresh, sample.seasoned] 1000
  obtain ⟨stats', hstats', -, -, hzero⟩ :=
    GetStudyStats_dueToday [] [sample.fresh, sample.seasoned] 5000
  exact ⟨⟨stats, hstats, by rw [hcount]; decide⟩, ⟨stats', hstats', hzero (by decide)⟩⟩

/-! ## Frame of the update -/

namespace storage

/-- When a lookup of the saved card's `ID` succeeds, the save loop overwrites exactly
the record the lookup returns: the first one of that `ID`. -/
theorem saveLoop_split (x : Flashcard) (cards : List Flashcard) (card : Flashcard)
    (h : GetFlashcard cards x.ID = .ok card) :
    ∃ pre post, cards = pre ++ card :: post ∧ (∀ c ∈ pre, c.ID ≠ x.ID) ∧
      saveLoop x cards = (pre ++ x :: post, true) := by
  induction cards with
  | nil => simp [GetFlashcard] at h
  | cons c cs ih =>
    rw [GetFlashcard_cons] at h
    by_cases hc : c.ID = x.ID
    · rw [if_pos hc, Except.ok.injEq] at h
      subst h
      refine ⟨[], cs, rfl, by simp, ?_⟩
      unfold saveLoop
      rw [if_pos hc]
      rfl
    · rw [if_neg hc] at h
      obtain ⟨pre, post, hsplit, hpre, hloop⟩ := ih h
      refine ⟨c :: pre, post, by rw [hsplit]; rfl, ?_, ?_⟩
      · intro y hy
        rcases List.mem_cons.1 hy with rfl | hy
        · exact hc
        · exact hpre y hy
      · unfold saveLoop
        rw [if_neg hc, hloop]
        rfl

end storage

open storage in
/-- C11: on a store of the program (every record carries an assigned `ID`) that holds
a card under `id`, a successful `scheduler.UpdateFlashcard id d` replaces a
single record: the store is `pre ++ card :: post` with `card` the first record of that
`ID`, and afterwards it is `pre ++ card' :: post`, so length and order are kept and
every other record is unchanged; `card'` has the `ID`, `NoteID`, `Question` and
`Answer` of `card`. -/
theorem UpdateFlashcard_frame (cards : List Flashcard) (now : Time) (fresh id : String)
    (d : Int) (card : Flashcard) (hstore : IDsAssigned cards)
    (hget : GetFlashcard cards id = .ok card)
    (hok : (scheduler.UpdateFlashcard cards now fresh id d).err = none) :
    ∃ pre post card',
      cards = pre ++ card :: post ∧ (∀ c ∈ pre, c.ID ≠ id) ∧
      (scheduler.UpdateFlashcard cards now fresh id d).cards = pre ++ card' :: post ∧
      (scheduler.UpdateFlashcard cards now fresh id d).cards.length = cards.length ∧
      card'.ID = card.ID ∧ card'.NoteID = card.NoteID ∧
      card'.Question = card.Question ∧ card'.Answer = card.Answer := by
  have hid : id ≠ "" := IDsAssigned_found hstore hget
  have hcard := GetFlashcard_ok_mem hget
  cases hlook : scheduler.nextInterval d card.RepCount with
  | error e => simp [scheduler.UpdateFlashcard, hget, hlook] at hok
  | ok hours =>
    have hrid : (scheduler.review card now hours d).ID = id := hcard.2
    have hassign : assignID fresh (scheduler.review card now hours d)
        = scheduler.review card now hours d := assignID_of_ne (by rw [hrid]; exact hid)
    obtain ⟨pre, post, hsplit, hpre, hloop⟩ :=
      saveLoop_split (scheduler.review card now hours d) cards card (by rw [hrid]; exact hget)
    have hcards : (scheduler.UpdateFlashcard cards now fresh id d).cards
        = pre ++ scheduler.review card now hours d :: post := by
      simp only [scheduler.UpdateFlashcard, hget, hlook, storage.UpdateFlashcard, SaveFlashcard,
        hassign, hloop, if_true]
    refine ⟨pre, post, scheduler.review card now hours d, hsplit, ?_, hcards, ?_,
      rfl, rfl, rfl, rfl⟩
    · intro c hc
      have := hpre c hc
      rwa [hrid] at this
    · rw [hcards, hsplit]
      simp

open storage in
/-- Witness for C11: a review of the second of two stored cards. -/
theorem UpdateFlashcard_frame_witness :
    ∃ pre post card',
      [sample.fresh, sample.seasoned] = pre ++ sample.seasoned :: post ∧
      (∀ c ∈ pre, c.ID ≠ "c-2") ∧
      (scheduler.UpdateFlashcard [sample.fresh, sample.seasoned] 1000 sample.uuid "c-2" 3).cards
        = pre ++ card' :: post ∧
      (scheduler.UpdateFlashcard [sample.fresh, sample.seasoned] 1000 sample.uuid "c-2" 3).cards.length
        = [sample.fresh, sample.seasoned].length ∧
      card'.ID = sample.seasoned.ID ∧ card'.NoteID = sample.seasoned.NoteID ∧
      card'.Question = sample.seasoned.Question ∧ card'.Answer = sample.seasoned.Answer :=
  UpdateFlashcard_frame [sample.fresh, sample.seasoned] 1000 sample.uuid "c-2" 3
    sample.seasoned (by decide) rfl rfl

open storage in
/-- Outside the store invariant: if the flashcards file has been edited to hold a
record without `ID`, `UpdateFlashcard "" 2` succeeds, leaves that record as it was and
appends the reviewed copy under the generated identifier. -/
theorem UpdateFlashcard_emptyID_appends :
    GetFlashcard [sample.unnamed] "" = .ok sample.unnamed ∧
    (scheduler.UpdateFlashcard [sample.unnamed] 1000 sample.uuid "" 2).err = none ∧
    (scheduler.UpdateFlashcard [sample.unnamed] 1000 sample.uuid "" 2).cards
      = [sample.unnamed,
         { sample.unnamed with ID := sample.uuid, NextReview := 1000, RepCount := 1,
                               Difficulty := 2 }] ∧
    (scheduler.UpdateFlashcard [sample.unnamed] 1000 sample.uuid "" 2).cards.length
      ≠ [sample.unnamed].length :=
  ⟨rfl, rfl, by decide, by decide⟩

/-! ## Parsing question and answer pairs -/

/-- C13 fails on the code: a response of `n` well-formed pairs that ends in a newline
yields `n - 1` cards. The answer line of the last pair is then neither the last line
nor followed by a `Q:` line, so the pair is never appended: one pair followed by a
newline gives no card, two pairs followed by a newline give only the first, while the
same texts without the final newline give all their cards. -/
theorem parseFlashcardsFromResponse_final_newline (clock : Nat → Time) (noteID : String) :
    processor.parseFlashcardsFromResponse clock "Q: a\nA: b\n" noteID = .ok [] ∧
    processor.parseFlashcardsFromResponse clock "Q: a\nA: b\n\nQ: c\nA: d\n" noteID
      = .ok [processor.newFlashcard noteID "a" "b" (clock 0)] ∧
    processor.parseFlashcardsFromResponse clock "Q: a\nA: b" noteID
      = .ok [processor.newFlashcard noteID "a" "b" (clock 0)] ∧
    processor.parseFlashcardsFromResponse clock "Q: a\nA: b\n\nQ: c\nA: d" noteID
      = .ok [processor.newFlashcard noteID "a" "b" (clock 0),
             processor.newFlashcard noteID "c" "d" (clock 1)] :=
  ⟨by rfl, by rfl, by rfl, by rfl⟩

end MdStudy
